import Mathlib

/-!
Shallow embedding of the user-data API's concurrency-and-eviction core:
the expiring LRU cache (`LRUCache`, from `cacheService`), the dual-window
rate limiter (`RateLimiter`), and the single-flight fetch coordinator
(`QueueService`).  JavaScript `Map`s are modelled as insertion-ordered
association lists; `Date.now()` readings are explicit `Nat` parameters;
promises are modelled as identifiers pointing into a store of result cells.
All definitions are translated from the TypeScript source.
-/

namespace UserDataApi

/-! ## Insertion-ordered association lists (JS `Map` model) -/

/-- Lookup of a key in an insertion-ordered association list (JS `Map.get`). -/
def lookupKey {α β : Type} [DecidableEq α] (k : α) : List (α × β) → Option β
  | [] => none
  | (k', v) :: rest => if k' = k then some v else lookupKey k rest

/-- Removal of a key (JS `Map.delete`); keys are unique in every list the
operations build, so removing every occurrence coincides with `Map.delete`. -/
def eraseKey {α β : Type} [DecidableEq α] (k : α) : List (α × β) → List (α × β)
  | [] => []
  | (k', v) :: rest => if k' = k then eraseKey k rest else (k', v) :: eraseKey k rest

/-- JS `Map.set`: update the value in place when the key is present,
otherwise append the entry at the end (most-recent position). -/
def jsMapSet {α β : Type} [DecidableEq α] (k : α) (v : β) : List (α × β) → List (α × β)
  | [] => [(k, v)]
  | (k', v') :: rest => if k' = k then (k', v) :: rest else (k', v') :: jsMapSet k v rest

theorem lookupKey_jsMapSet_self {α β : Type} [DecidableEq α] (k : α) (v : β)
    (l : List (α × β)) : lookupKey k (jsMapSet k v l) = some v := by
  induction l with
  | nil => simp [jsMapSet, lookupKey]
  | cons p rest ih =>
      obtain ⟨k', v'⟩ := p
      by_cases h : k' = k
      · simp [jsMapSet, lookupKey, h]
      · simp [jsMapSet, lookupKey, h, ih]

theorem jsMapSet_of_lookup_none {α β : Type} [DecidableEq α] {k : α} (v : β)
    {l : List (α × β)} (h : lookupKey k l = none) : jsMapSet k v l = l ++ [(k, v)] := by
  induction l with
  | nil => simp [jsMapSet]
  | cons p rest ih =>
      obtain ⟨k', v'⟩ := p
      by_cases hk : k' = k
      · simp [lookupKey, hk] at h
      · simp [lookupKey, hk] at h
        simp [jsMapSet, hk, ih h]

theorem lookupKey_eraseKey_self {α β : Type} [DecidableEq α] (k : α)
    (l : List (α × β)) : lookupKey k (eraseKey k l) = none := by
  induction l with
  | nil => simp [eraseKey, lookupKey]
  | cons p rest ih =>
      obtain ⟨k', v'⟩ := p
      by_cases h : k' = k
      · simp [eraseKey, h, ih]
      · simp [eraseKey, lookupKey, h, ih]

theorem eraseKey_of_lookup_none {α β : Type} [DecidableEq α] {k : α}
    {l : List (α × β)} (h : lookupKey k l = none) : eraseKey k l = l := by
  induction l with
  | nil => simp [eraseKey]
  | cons p rest ih =>
      obtain ⟨k', v'⟩ := p
      by_cases hk : k' = k
      · simp [lookupKey, hk] at h
      · simp [lookupKey, hk] at h
        simp [eraseKey, hk, ih h]

theorem mem_keys_of_lookup_some {α β : Type} [DecidableEq α] {k : α} {v : β}
    {l : List (α × β)} (h : lookupKey k l = some v) : k ∈ l.map Prod.fst := by
  induction l with
  | nil => simp [lookupKey] at h
  | cons p rest ih =>
      obtain ⟨k', v'⟩ := p
      by_cases hk : k' = k
      · subst hk; simp
      · simp [lookupKey, hk] at h
        simpa using Or.inr (ih h)

theorem length_eraseKey_of_lookup_some {α β : Type} [DecidableEq α] {k : α} {v : β}
    {l : List (α × β)} (hnd : (l.map Prod.fst).Nodup) (h : lookupKey k l = some v) :
    (eraseKey k l).length + 1 = l.length := by
  induction l with
  | nil => simp [lookupKey] at h
  | cons p rest ih =>
      obtain ⟨k', v'⟩ := p
      simp only [List.map_cons, List.nodup_cons] at hnd
      by_cases hk : k' = k
      · subst hk
        have hrest : lookupKey k' rest = none := by
          rcases hlr : lookupKey k' rest with _ | w
          · rfl
          · exact absurd (mem_keys_of_lookup_some hlr) hnd.1
        simp [eraseKey, eraseKey_of_lookup_none hrest]
      · simp [lookupKey, hk] at h
        simp [eraseKey, hk, ih hnd.2 h]

/-! ## Expiring LRU cache (`LRUCache` in `cacheService`) -/

/-- User record (`src/types`). -/
structure User where
  id : Nat
  name : String
  email : String
deriving DecidableEq

/-- Structure `CacheItem`: a cached value with its storage and last-access timestamps. -/
structure CacheItem where
  data : User
  timestamp : Nat
  accessTime : Nat
deriving DecidableEq

/-- Structure `CacheStats` (the derived floating-point `averageResponseTime` is omitted;
`size` is an `Int` because the source's bookkeeping can drive it negative). -/
structure CacheStats where
  hits : Nat
  misses : Nat
  size : Int
  totalRequests : Nat
  totalResponseTime : Nat
deriving DecidableEq

/-- The LRU cache state: insertion-ordered map, capacity, TTL (ms), stats. -/
structure LRUCache where
  cache : List (String × CacheItem)
  maxSize : Nat
  ttl : Nat
  stats : CacheStats
deriving DecidableEq

namespace LRUCache

/-- Source `updateStats(startTime)`: bump `totalRequests` and add the elapsed time
(`tEnd - now`, the final `Date.now()` reading minus the one at entry). -/
def updateStats (st : CacheStats) (now tEnd : Nat) : CacheStats :=
  { st with totalRequests := st.totalRequests + 1,
            totalResponseTime := st.totalResponseTime + (tEnd - now) }

/-- Source `LRUCache.get`: TTL check, expired-entry removal, LRU touch via
delete-then-set, hit/miss counters.  `now` models the `Date.now()` readings
during the operation and `tEnd` the final reading inside `updateStats`. -/
def get (s : LRUCache) (key : String) (now tEnd : Nat) : Option User × LRUCache :=
  match lookupKey key s.cache with
  | none =>
      (none, { s with stats := updateStats { s.stats with misses := s.stats.misses + 1 } now tEnd })
  | some item =>
      if now - item.timestamp > s.ttl then
        (none, { s with cache := eraseKey key s.cache,
                        stats := updateStats
                          { s.stats with size := s.stats.size - 1,
                                         misses := s.stats.misses + 1 } now tEnd })
      else
        (some item.data,
          { s with cache := jsMapSet key { item with accessTime := now } (eraseKey key s.cache),
                   stats := updateStats { s.stats with hits := s.stats.hits + 1 } now tEnd })

/-- Source `LRUCache.set`: delete-then-reinsert on an existing key; otherwise evict
the first (least-recently-used) key when at capacity — but only when that key
is truthy (`if (firstKey)`), so the empty-string key is never evicted.  The
final `stats.size` increment replicates the source's condition verbatim. -/
def set (s : LRUCache) (key : String) (data : User) (now : Nat) : LRUCache :=
  let step1 :=
    if (lookupKey key s.cache).isSome then
      (eraseKey key s.cache, s.stats.size)
    else if s.maxSize ≤ s.cache.length then
      match s.cache.head? with
      | some (firstKey, _) =>
          if firstKey ≠ "" then (eraseKey firstKey s.cache, s.stats.size - 1)
          else (s.cache, s.stats.size)
      | none => (s.cache, s.stats.size)
    else (s.cache, s.stats.size)
  let cache2 := jsMapSet key { data := data, timestamp := now, accessTime := now } step1.1
  let size2 :=
    if (lookupKey key cache2).isNone ∨ cache2.length < s.maxSize then step1.2 + 1 else step1.2
  { s with cache := cache2, stats := { s.stats with size := size2 } }

/-- Source `LRUCache.delete`. -/
def delete (s : LRUCache) (key : String) : Bool × LRUCache :=
  if (lookupKey key s.cache).isSome then
    (true, { s with cache := eraseKey key s.cache,
                    stats := { s.stats with size := s.stats.size - 1 } })
  else (false, s)

/-- Source `LRUCache.clear`: drop all entries and reset the size counter only. -/
def clear (s : LRUCache) : LRUCache :=
  { s with cache := [], stats := { s.stats with size := 0 } }

/-- Source `LRUCache.cleanupExpiredEntries`: the background sweep removes every
entry whose age exceeds the TTL and decrements the size counter per removal. -/
def cleanupExpiredEntries (s : LRUCache) (now : Nat) : LRUCache :=
  let expired := (s.cache.filter (fun p => decide (now - p.2.timestamp > s.ttl))).map Prod.fst
  { s with cache := expired.foldl (fun c k => eraseKey k c) s.cache,
           stats := { s.stats with size := s.stats.size - expired.length } }

/-- Source `LRUCache.getStats` (snapshot copy). -/
def getStats (s : LRUCache) : CacheStats := s.stats

end LRUCache

/-! ## Dual-window rate limiter (`RateLimiter`) -/

/-- Structure `RateLimitEntry`: the per-client timestamp sequences. -/
structure RateLimitEntry where
  requests : List Nat
  burstRequests : List Nat
deriving DecidableEq

/-- The rate limiter state and configuration. -/
structure RateLimiter where
  clients : List (String × RateLimitEntry)
  maxRequests : Nat
  windowMs : Nat
  maxBurstRequests : Nat
  burstWindowMs : Nat
deriving DecidableEq

/-- The record returned by `checkLimit`.  `remaining` is an `Int` as JS
numbers are signed. -/
structure RateLimitResult where
  allowed : Bool
  remaining : Int
  resetTime : Nat
deriving DecidableEq

/-- Model of `Math.min(...list)` over timestamps.  The source only evaluates it on
nonempty lists (a denial branch requires the pruned count to reach a
positive budget); on `[]` JS would give `Infinity`, not representable here. -/
def listMinimum : List Nat → Nat
  | [] => 0
  | [t] => t
  | t :: t' :: rest => min t (listMinimum (t' :: rest))

theorem listMinimum_mem : ∀ (l : List Nat), l ≠ [] → listMinimum l ∈ l
  | [], h => absurd rfl h
  | [t], _ => by simp [listMinimum]
  | t :: t' :: rest, _ => by
      rcases le_total t (listMinimum (t' :: rest)) with h | h
      · simp [listMinimum, min_eq_left h]
      · have := listMinimum_mem (t' :: rest) (by simp)
        simp only [listMinimum, min_eq_right h]
        exact List.mem_cons_of_mem _ this

theorem listMinimum_le : ∀ (l : List Nat), ∀ t ∈ l, listMinimum l ≤ t
  | [], t, h => by simp at h
  | [u], t, h => by simp at h; simp [listMinimum, h]
  | u :: u' :: rest, t, h => by
      rcases List.mem_cons.mp h with rfl | h'
      · simp [listMinimum]
      · have := listMinimum_le (u' :: rest) t h'
        simp only [listMinimum]
        exact le_trans (min_le_right _ _) this

/-- Pruning a timestamp sequence to its window: the source keeps `time` with
`now - time < window` (JS signed subtraction, hence the `Int` cast). -/
def pruneWindow (ts : List Nat) (now window : Nat) : List Nat :=
  ts.filter (fun t => decide ((now : Int) - (t : Int) < (window : Int)))

namespace RateLimiter

/-- The entry the check operates on: the client's stored entry, or the
freshly inserted empty one for a first-time client. -/
def clientEntry (s : RateLimiter) (clientId : String) : RateLimitEntry :=
  (lookupKey clientId s.clients).getD { requests := [], burstRequests := [] }

/-- Source `RateLimiter.checkLimit`: prune both sequences, check burst first, then
sustained; on admission append `now` to both sequences.  The pruned (and
possibly extended) sequences are written back to the client map in every
branch, as the source mutates the stored entry in place. -/
def checkLimit (s : RateLimiter) (clientId : String) (now : Nat) :
    RateLimitResult × RateLimiter :=
  let clients0 :=
    if (lookupKey clientId s.clients).isSome then s.clients
    else jsMapSet clientId { requests := [], burstRequests := [] } s.clients
  let client := (lookupKey clientId clients0).getD { requests := [], burstRequests := [] }
  let requests := pruneWindow client.requests now s.windowMs
  let burst := pruneWindow client.burstRequests now s.burstWindowMs
  if s.maxBurstRequests ≤ burst.length then
    ({ allowed := false, remaining := 0, resetTime := listMinimum burst + s.burstWindowMs },
     { s with clients := jsMapSet clientId (RateLimitEntry.mk requests burst) clients0 })
  else if s.maxRequests ≤ requests.length then
    ({ allowed := false, remaining := 0, resetTime := listMinimum requests + s.windowMs },
     { s with clients := jsMapSet clientId (RateLimitEntry.mk requests burst) clients0 })
  else
    let requests' := requests ++ [now]
    let burst' := burst ++ [now]
    ({ allowed := true,
       remaining := min ((s.maxRequests : Int) - requests'.length)
                        ((s.maxBurstRequests : Int) - burst'.length),
       resetTime := now + s.windowMs },
     { s with clients := jsMapSet clientId (RateLimitEntry.mk requests' burst') clients0 })

/-- Source `RateLimiter.getStats`. -/
def getStats (s : RateLimiter) : Nat × Nat × Nat × Nat × Nat :=
  (s.clients.length, s.maxRequests, s.windowMs, s.maxBurstRequests, s.burstWindowMs)

end RateLimiter

/-! ## Single-flight fetch coordinator (`QueueService`)

Promises are modelled as identifiers (`promiseId`) pointing into a store of
result cells (`promises : List (Nat × Option JobResult)`); a cell holding
`none` is a pending promise, `some r` a settled one.  Every caller that was
handed the same `promiseId` observes the same settled result, which is how
promise fan-out works in JS.  The drain loop `processQueue` suspends only at
its two `await`s, so its code between suspension points runs atomically with
respect to all other code; each such block is one step of the machine.  The
program counter of an active `processQueue` invocation is a `DrainPC`; the
state keeps a list of them so that the theorem that at most one drain (and
hence at most one upstream fetch) is active is a fact to prove, not a
modelling artifact. -/

/-- Outcome of a user fetch: `resolve(user | null)` or `reject(Error)`. -/
inductive JobResult where
  | success : Option User → JobResult
  | failure : String → JobResult
deriving DecidableEq

/-- Structure `QueueJob` (the `resolve`/`reject` pair is the promise identifier). -/
structure QueueJob where
  id : String
  userId : Nat
  timestamp : Nat
  promiseId : Nat
deriving DecidableEq

/-- The queue service statistics.  `pending` is an `Int`: the source
decrements it with no floor. -/
structure QueueStats where
  processed : Nat
  failed : Nat
  pending : Int
deriving DecidableEq

/-- Program counter of one active `processQueue` invocation: at the loop
condition (`running`), awaiting `getUserById` (`fetching`), or awaiting the
10 ms pacing delay (`pacing`). -/
inductive DrainPC where
  | running : DrainPC
  | fetching : QueueJob → DrainPC
  | pacing : DrainPC
deriving DecidableEq

/-- Whether a drain invocation is currently awaiting an upstream fetch. -/
def DrainPC.isFetching : DrainPC → Bool
  | .fetching _ => true
  | _ => false

/-- The queue service state. -/
structure QueueService where
  queue : List QueueJob
  processing : Bool
  pendingRequests : List (Nat × Nat)
  stats : QueueStats
  promises : List (Nat × Option JobResult)
  nextPromiseId : Nat
  drains : List DrainPC
deriving DecidableEq

/-- Settling a promise: fill the cell when it is still pending; settling an
already-settled promise is a no-op, as in JS. -/
def settle (pid : Nat) (r : JobResult) : List (Nat × Option JobResult) →
    List (Nat × Option JobResult)
  | [] => []
  | (pid', res) :: rest =>
      (if pid' = pid ∧ res = none then (pid', some r) else (pid', res)) :: settle pid r rest

/-- The error message used by `close()`. -/
def shutdownMessage : String := "Queue service is shutting down"

namespace QueueService

/-- The freshly constructed service. -/
def init : QueueService :=
  { queue := [], processing := false, pendingRequests := [],
    stats := { processed := 0, failed := 0, pending := 0 },
    promises := [], nextPromiseId := 0, drains := [] }

/-- Source `QueueService.addUserFetchJob`: return the pending promise when one is
registered for the user; otherwise create a fresh promise, enqueue a job for
it and register it as in flight. -/
def addUserFetchJob (s : QueueService) (userId now : Nat) : Nat × QueueService :=
  match lookupKey userId s.pendingRequests with
  | some pid => (pid, s)
  | none =>
      let pid := s.nextPromiseId
      let job : QueueJob :=
        { id := "user-" ++ toString userId ++ "-" ++ toString now,
          userId := userId, timestamp := now, promiseId := pid }
      (pid, { s with queue := s.queue ++ [job],
                     stats := { s.stats with pending := s.stats.pending + 1 },
                     pendingRequests := jsMapSet userId pid s.pendingRequests,
                     promises := s.promises ++ [(pid, none)],
                     nextPromiseId := pid + 1 })

/-- Entry of `processQueue`: `if (this.processing || this.queue.length === 0)
return;` — otherwise set the flag and start a new drain invocation at the
loop condition. -/
def startDrain (s : QueueService) : QueueService :=
  if s.processing = true ∨ s.queue = [] then s
  else { s with processing := true, drains := s.drains ++ [DrainPC.running] }

/-- A drain at the loop condition: if the queue is empty the loop ends and
the invocation clears the flag and returns; otherwise it shifts the first
job, decrements `stats.pending` and issues the upstream call. -/
def runDrain (s : QueueService) (i : Nat) : QueueService :=
  match s.drains[i]? with
  | some DrainPC.running =>
      match s.queue with
      | [] => { s with processing := false, drains := s.drains.eraseIdx i }
      | job :: rest =>
          { s with queue := rest,
                   stats := { s.stats with pending := s.stats.pending - 1 },
                   drains := s.drains.set i (DrainPC.fetching job) }
  | _ => s

/-- The upstream call returns (with `r`): the drain settles the job's
promise, bumps `processed`/`failed` and deletes the in-flight entry, all in
one synchronous block, then awaits the pacing delay. -/
def completeFetch (s : QueueService) (i : Nat) (r : JobResult) : QueueService :=
  match s.drains[i]? with
  | some (DrainPC.fetching job) =>
      match r with
      | JobResult.success u =>
          { s with promises := settle job.promiseId (JobResult.success u) s.promises,
                   stats := { s.stats with processed := s.stats.processed + 1 },
                   pendingRequests := eraseKey job.userId s.pendingRequests,
                   drains := s.drains.set i DrainPC.pacing }
      | JobResult.failure e =>
          { s with promises := settle job.promiseId (JobResult.failure e) s.promises,
                   stats := { s.stats with failed := s.stats.failed + 1 },
                   pendingRequests := eraseKey job.userId s.pendingRequests,
                   drains := s.drains.set i DrainPC.pacing }
  | _ => s

/-- The 10 ms pacing delay elapses: back to the loop condition. -/
def pacingDone (s : QueueService) (i : Nat) : QueueService :=
  match s.drains[i]? with
  | some DrainPC.pacing => { s with drains := s.drains.set i DrainPC.running }
  | _ => s

/-- Source `QueueService.close`: reject every queued job with the shutdown error,
then clear the queue and the in-flight map.  An already-started fetch is not
interrupted (`processing` and the drains are untouched). -/
def close (s : QueueService) : QueueService :=
  { s with promises := s.queue.foldl (fun ps j => settle j.promiseId
      (JobResult.failure shutdownMessage) ps) s.promises,
           queue := [], pendingRequests := [] }

end QueueService

/-- One step of the queue service: a caller adds a fetch job, a drain
invocation is started or advances past one of its suspension points, or the
service is closed. -/
inductive QStep : QueueService → QueueService → Prop
  | add (s : QueueService) (userId now : Nat) : QStep s (s.addUserFetchJob userId now).2
  | start (s : QueueService) : QStep s s.startDrain
  | run (s : QueueService) (i : Nat) : QStep s (s.runDrain i)
  | complete (s : QueueService) (i : Nat) (r : JobResult) : QStep s (s.completeFetch i r)
  | pace (s : QueueService) (i : Nat) : QStep s (s.pacingDone i)
  | close (s : QueueService) : QStep s s.close

/-- States reachable from the freshly constructed service. -/
inductive QReachable : QueueService → Prop
  | init : QReachable QueueService.init
  | step {s t : QueueService} : QReachable s → QStep s t → QReachable t

/-! ### Lemmas about promise settlement -/

theorem lookupKey_settle_self {pid : Nat} {r : JobResult}
    {ps : List (Nat × Option JobResult)} (h : lookupKey pid ps = some none) :
    lookupKey pid (settle pid r ps) = some (some r) := by
  induction ps with
  | nil => simp [lookupKey] at h
  | cons p rest ih =>
      obtain ⟨pid', res⟩ := p
      simp only [settle]
      by_cases hc : pid' = pid ∧ res = none
      · rw [if_pos hc]
        rcases hc with ⟨rfl, rfl⟩
        simp [lookupKey]
      · rw [if_neg hc]
        by_cases hp : pid' = pid
        · subst hp
          simp only [lookupKey, if_pos rfl] at h
          have hres : res = none := by simpa using h
          exact absurd ⟨rfl, hres⟩ hc
        · simp only [lookupKey, if_neg hp] at h ⊢
          exact ih h

theorem lookupKey_settle_of_ne {pid q : Nat} {r : JobResult}
    {ps : List (Nat × Option JobResult)} (h : pid ≠ q) :
    lookupKey pid (settle q r ps) = lookupKey pid ps := by
  induction ps with
  | nil => simp [settle]
  | cons p rest ih =>
      obtain ⟨pid', res⟩ := p
      simp only [settle]
      by_cases hc : pid' = q ∧ res = none
      · rw [if_pos hc]
        rcases hc with ⟨rfl, rfl⟩
        simp only [lookupKey]
        rw [if_neg (fun he => h he.symm), if_neg (fun he => h he.symm)]
        exact ih
      · rw [if_neg hc]
        simp only [lookupKey]
        by_cases hp : pid' = pid
        · rw [if_pos hp, if_pos hp]
        · rw [if_neg hp, if_neg hp]
          exact ih

theorem lookupKey_settle_of_settled {pid q : Nat} {r r' : JobResult}
    {ps : List (Nat × Option JobResult)} (h : lookupKey pid ps = some (some r)) :
    lookupKey pid (settle q r' ps) = some (some r) := by
  induction ps with
  | nil => simp [lookupKey] at h
  | cons p rest ih =>
      obtain ⟨pid', res⟩ := p
      simp only [settle]
      by_cases hc : pid' = q ∧ res = none
      · rw [if_pos hc]
        rcases hc with ⟨rfl, rfl⟩
        simp only [lookupKey] at h ⊢
        by_cases hp : pid' = pid
        · rw [if_pos hp] at h
          simp at h
        · rw [if_neg hp] at h
          rw [if_neg hp]
          exact ih h
      · rw [if_neg hc]
        simp only [lookupKey] at h ⊢
        by_cases hp : pid' = pid
        · rw [if_pos hp] at h ⊢
          exact h
        · rw [if_neg hp] at h ⊢
          exact ih h

theorem foldl_settle_of_settled {pid : Nat} {r : JobResult}
    {jobs : List QueueJob} {ps : List (Nat × Option JobResult)}
    (h : lookupKey pid ps = some (some r)) :
    lookupKey pid (jobs.foldl (fun a j => settle j.promiseId
      (JobResult.failure shutdownMessage) a) ps) = some (some r) := by
  induction jobs generalizing ps with
  | nil => simpa using h
  | cons j rest ih =>
      simp only [List.foldl]
      exact ih (lookupKey_settle_of_settled h)

theorem foldl_settle_of_mem {j : QueueJob} {jobs : List QueueJob}
    {ps : List (Nat × Option JobResult)}
    (hmem : j ∈ jobs) (h : lookupKey j.promiseId ps = some none) :
    lookupKey j.promiseId (jobs.foldl (fun a q => settle q.promiseId
      (JobResult.failure shutdownMessage) a) ps)
      = some (some (JobResult.failure shutdownMessage)) := by
  induction jobs generalizing ps with
  | nil => simp at hmem
  | cons q rest ih =>
      simp only [List.foldl]
      rcases List.mem_cons.mp hmem with rfl | hrest
      · exact foldl_settle_of_settled (lookupKey_settle_self h)
      · by_cases hq : j.promiseId = q.promiseId
        · rw [hq] at h ⊢
          exact foldl_settle_of_settled (lookupKey_settle_self h)
        · exact ih hrest (by rw [lookupKey_settle_of_ne hq]; exact h)

/-! ## Concrete instances used by witnesses and counterexamples -/

/-- A user record like the mock database's first entry. -/
def userA : User := { id := 1, name := "John Doe", email := "john@example.com" }

/-- A fresh cache of the given capacity with the default 60 s TTL, as built
by `new LRUCache(cap, 60)`. -/
def freshCache (cap : Nat) : LRUCache :=
  { cache := [], maxSize := cap, ttl := 60000,
    stats := { hits := 0, misses := 0, size := 0, totalRequests := 0, totalResponseTime := 0 } }

/-! ## Claims about the cache -/

/-- Claim C4: `get(key)` at time `now` returns absent and bumps the miss
counter when the key is absent or `now - storedAt > ttl` (removing an
expired entry as a side effect); otherwise it returns the stored value,
refreshes `lastAccessed` to `now`, moves the entry to the most-recently-used
position (the end of the insertion-ordered map) and bumps the hit counter.
In particular a `get` at or before `storedAt + ttl` returns the value and a
`get` strictly after returns absent. -/
theorem claim_C4 (s : LRUCache) (key : String) (now tEnd : Nat) :
    (lookupKey key s.cache = none →
        (s.get key now tEnd).1 = none
      ∧ (s.get key now tEnd).2.stats.misses = s.stats.misses + 1
      ∧ (s.get key now tEnd).2.cache = s.cache)
  ∧ (∀ item, lookupKey key s.cache = some item →
      (item.timestamp + s.ttl < now →
          (s.get key now tEnd).1 = none
        ∧ (s.get key now tEnd).2.stats.misses = s.stats.misses + 1
        ∧ lookupKey key (s.get key now tEnd).2.cache = none)
    ∧ (now ≤ item.timestamp + s.ttl →
          (s.get key now tEnd).1 = some item.data
        ∧ (s.get key now tEnd).2.stats.hits = s.stats.hits + 1
        ∧ (s.get key now tEnd).2.cache
            = eraseKey key s.cache
                ++ [(key, { data := item.data, timestamp := item.timestamp, accessTime := now })])) := by
  refine ⟨?_, ?_⟩
  · intro h
    simp [LRUCache.get, h, LRUCache.updateStats]
  · intro item h
    refine ⟨?_, ?_⟩
    · intro hexp
      have hc : now - item.timestamp > s.ttl := by omega
      simp [LRUCache.get, h, hc, LRUCache.updateStats, lookupKey_eraseKey_self]
    · intro hval
      have hc : ¬ now - item.timestamp > s.ttl := by omega
      simp [LRUCache.get, h, hc, LRUCache.updateStats,
        jsMapSet_of_lookup_none _ (lookupKey_eraseKey_self key s.cache)]

/-- Witness for C4: a hit at time 5 on an entry stored at time 0 under a
60 s TTL returns the stored user. -/
theorem claim_C4_witness :
    (LRUCache.get
      { cache := [("k", { data := userA, timestamp := 0, accessTime := 0 })],
        maxSize := 100, ttl := 60000,
        stats := { hits := 0, misses := 0, size := 1, totalRequests := 0, totalResponseTime := 0 } }
      "k" 5 5).1 = some userA :=
  (((claim_C4 _ "k" 5 5).2 { data := userA, timestamp := 0, accessTime := 0 }
      (by decide)).2 (by decide)).1

/-- Claim C2 is violated by the source: `set` updates `stats.size` under the
condition `!has(key) || size < maxSize` taken after the insertion, so an
update of an existing key inflates the counter (two `set "a"` on a fresh
capacity-100 cache leave one stored key but report size 2), the insertion
that fills a cache to capacity is not counted (one `set "a"` on a fresh
capacity-1 cache stores one key but reports size 0), and a subsequent
`delete "a"` drives the reported size to −1. -/
theorem claim_C2 :
    (((freshCache 100).set "a" userA 0).set "a" userA 1).getStats.size = 2
  ∧ (((freshCache 100).set "a" userA 0).set "a" userA 1).cache.length = 1
  ∧ ((freshCache 1).set "a" userA 0).getStats.size = 0
  ∧ ((freshCache 1).set "a" userA 0).cache.length = 1
  ∧ (((freshCache 1).set "a" userA 0).delete "a").2.getStats.size = -1 := by
  decide

/-- Counterexample to C5 as stated: with capacity 1, after `set "" u` the
cache is at capacity and `""` is its least-recently-used (only) key, yet
`set "x" u` evicts nothing — the JS truthiness test `if (firstKey)` rejects
the empty-string key — so both entries remain and the map exceeds capacity. -/
theorem claim_C5_counterexample :
    (((freshCache 1).set "" userA 0).set "x" userA 1).cache.length = 2
  ∧ (lookupKey "" (((freshCache 1).set "" userA 0).set "x" userA 1).cache).isSome = true := by
  decide

/-- Claim C5, amended: the eviction guarantee holds provided the
least-recently-used key is not the empty string (the source's `if
(firstKey)` truthiness test skips eviction for the empty-string key).  A
`set` on a present key is a pure recency touch: the entry is reinserted at
the most-recently-used position with fresh value and timestamps, nothing is
evicted and the number of entries is unchanged.  A `set` on an absent key
with the map at capacity evicts exactly the first (least-recently-used)
entry and appends the new entry at the most-recently-used position. -/
theorem claim_C5 (s : LRUCache) (key fk : String) (it : CacheItem)
    (rest : List (String × CacheItem)) (data : User) (now : Nat) :
    (∀ item, lookupKey key s.cache = some item → (s.cache.map Prod.fst).Nodup →
        (s.set key data now).cache
          = eraseKey key s.cache ++ [(key, { data := data, timestamp := now, accessTime := now })]
      ∧ (s.set key data now).cache.length = s.cache.length)
  ∧ (s.cache = (fk, it) :: rest → fk ≠ "" → lookupKey key s.cache = none →
       s.maxSize ≤ s.cache.length → lookupKey fk rest = none →
        (s.set key data now).cache
          = rest ++ [(key, { data := data, timestamp := now, accessTime := now })]) := by
  refine ⟨?_, ?_⟩
  · intro item h hnd
    have hnone := lookupKey_eraseKey_self key s.cache
    have hc2 : (s.set key data now).cache
        = eraseKey key s.cache ++ [(key, { data := data, timestamp := now, accessTime := now })] := by
      simp only [LRUCache.set, h, Option.isSome_some, if_pos]
      exact jsMapSet_of_lookup_none _ hnone
    refine ⟨hc2, ?_⟩
    rw [hc2]
    have := length_eraseKey_of_lookup_some hnd h
    simp only [List.length_append, List.length_cons, List.length_nil]
    omega
  · intro hcache hfk hkey hcap hrest
    have hkrest : lookupKey key rest = none := by
      rw [hcache] at hkey
      by_cases hkf : fk = key
      · simp [lookupKey, hkf] at hkey
      · simpa [lookupKey, hkf] using hkey
    have h1 : eraseKey fk ((fk, it) :: rest) = rest := by
      simp [eraseKey, eraseKey_of_lookup_none hrest]
    rw [hcache] at hkey hcap
    simp only [List.length_cons] at hcap
    simp only [LRUCache.set, hcache]
    simp [hkey, hcap, hfk, h1, jsMapSet_of_lookup_none _ hkrest]

/-- Witness for C5: the spec's capacity-2 scenario — after inserting A and B
and reading A the order is B (LRU) then A; inserting C evicts B and leaves A
then C. -/
theorem claim_C5_witness :
    (LRUCache.set
      { cache := [("B", { data := userA, timestamp := 0, accessTime := 0 }),
                  ("A", { data := userA, timestamp := 0, accessTime := 1 })],
        maxSize := 2, ttl := 60000,
        stats := { hits := 1, misses := 0, size := 2, totalRequests := 1, totalResponseTime := 0 } }
      "C" userA 5).cache
      = [("A", { data := userA, timestamp := 0, accessTime := 1 }),
         ("C", { data := userA, timestamp := 5, accessTime := 5 })] :=
  (claim_C5 _ "C" "B"
      { data := userA, timestamp := 0, accessTime := 0 }
      [("A", { data := userA, timestamp := 0, accessTime := 1 })] userA 5).2
    rfl (by decide) (by decide) (by decide) (by decide)

/-! ## Claim about the rate limiter -/

/-- Claim C3: on every `checkLimit` both timestamp sequences are first
pruned to their windows (`R` sustained, `B` burst).  Burst is evaluated
first: if the pruned burst count reaches the burst budget the request is
denied with `resetTime` = oldest surviving burst timestamp + burst window
(`listMinimum B` is a member of `B` and a lower bound of it, i.e. the oldest
survivor); otherwise, if the pruned sustained count reaches the sustained
budget, it is denied with `resetTime` = oldest surviving sustained timestamp
+ sustained window; otherwise it is admitted, `now` is appended to both
sequences, `remaining = min(Ns − sustainedCount, Nb − burstCount)` counted
after the append, and `resetTime = now + Ws`.  In every case the stored
entry is the pruned (and, on admission, extended) pair. -/
theorem claim_C3 (s : RateLimiter) (cid : String) (now : Nat) (R B : List Nat)
    (hR : R = pruneWindow (s.clientEntry cid).requests now s.windowMs)
    (hB : B = pruneWindow (s.clientEntry cid).burstRequests now s.burstWindowMs)
    (hb : 0 < s.maxBurstRequests) (hn : 0 < s.maxRequests) :
    (s.maxBurstRequests ≤ B.length →
        (s.checkLimit cid now).1
          = { allowed := false, remaining := 0, resetTime := listMinimum B + s.burstWindowMs }
      ∧ listMinimum B ∈ B ∧ (∀ t ∈ B, listMinimum B ≤ t)
      ∧ lookupKey cid (s.checkLimit cid now).2.clients = some (RateLimitEntry.mk R B))
  ∧ (B.length < s.maxBurstRequests → s.maxRequests ≤ R.length →
        (s.checkLimit cid now).1
          = { allowed := false, remaining := 0, resetTime := listMinimum R + s.windowMs }
      ∧ listMinimum R ∈ R ∧ (∀ t ∈ R, listMinimum R ≤ t)
      ∧ lookupKey cid (s.checkLimit cid now).2.clients = some (RateLimitEntry.mk R B))
  ∧ (B.length < s.maxBurstRequests → R.length < s.maxRequests →
        (s.checkLimit cid now).1
          = { allowed := true,
              remaining := min ((s.maxRequests : Int) - (R.length + 1))
                               ((s.maxBurstRequests : Int) - (B.length + 1)),
              resetTime := now + s.windowMs }
      ∧ lookupKey cid (s.checkLimit cid now).2.clients
          = some (RateLimitEntry.mk (R ++ [now]) (B ++ [now]))) := by
  have hent : lookupKey cid (if (lookupKey cid s.clients).isSome then s.clients
      else jsMapSet cid { requests := [], burstRequests := [] } s.clients)
      = some (s.clientEntry cid) := by
    rcases hl : lookupKey cid s.clients with _ | e
    · simp [hl, lookupKey_jsMapSet_self, RateLimiter.clientEntry]
    · simp [hl, RateLimiter.clientEntry]
  refine ⟨?_, ?_, ?_⟩
  · intro h1
    have hBne : B ≠ [] := by
      intro hc
      rw [hc] at h1
      simp at h1
      omega
    refine ⟨?_, listMinimum_mem B hBne, listMinimum_le B, ?_⟩
    · simp only [RateLimiter.checkLimit, hent, Option.getD_some]
      rw [← hR, ← hB]
      simp [h1]
    · simp only [RateLimiter.checkLimit, hent, Option.getD_some]
      rw [← hR, ← hB]
      simp [h1, lookupKey_jsMapSet_self]
  · intro h1 h2
    have hRne : R ≠ [] := by
      intro hc
      rw [hc] at h2
      simp at h2
      omega
    have h1' : ¬ s.maxBurstRequests ≤ B.length := by omega
    refine ⟨?_, listMinimum_mem R hRne, listMinimum_le R, ?_⟩
    · simp only [RateLimiter.checkLimit, hent, Option.getD_some]
      rw [← hR, ← hB]
      simp [h1', h2]
    · simp only [RateLimiter.checkLimit, hent, Option.getD_some]
      rw [← hR, ← hB]
      simp [h1', h2, lookupKey_jsMapSet_self]
  · intro h1 h2
    have h1' : ¬ s.maxBurstRequests ≤ B.length := by omega
    have h2' : ¬ s.maxRequests ≤ R.length := by omega
    refine ⟨?_, ?_⟩
    · simp only [RateLimiter.checkLimit, hent, Option.getD_some]
      rw [← hR, ← hB]
      simp [h1', h2']
    · simp only [RateLimiter.checkLimit, hent, Option.getD_some]
      rw [← hR, ← hB]
      simp [h1', h2', lookupKey_jsMapSet_self]

/-- Witness for C3: the spec's burst example — burst budget 5 / 10 s and
sustained 10 / 60 s, five requests at times 0..4 already recorded; the 6th
request at time 5 is denied with `resetTime` = oldest burst timestamp (0) +
10000, even though the sustained budget is not exhausted. -/
theorem claim_C3_witness :
    (RateLimiter.checkLimit
      { clients := [("c", { requests := [0, 1, 2, 3, 4], burstRequests := [0, 1, 2, 3, 4] })],
        maxRequests := 10, windowMs := 60000, maxBurstRequests := 5, burstWindowMs := 10000 }
      "c" 5).1
      = { allowed := false, remaining := 0, resetTime := 10000 } :=
  ((claim_C3 _ "c" 5 [0, 1, 2, 3, 4] [0, 1, 2, 3, 4]
      (by decide) (by decide) (by decide) (by decide)).1 (by decide)).1

/-! ## Claims about the queue service -/

/-- The job created by the first `addUserFetchJob 1` on a fresh service. -/
def jobEx : QueueJob :=
  { id := "user-1-0", userId := 1, timestamp := 0, promiseId := 0 }

/-- The state reached from `init` by `addUserFetchJob 1` at time 0, the
start of the drain loop and the shift of the job: the upstream fetch for
user 1 is in flight. -/
def sFetch : QueueService :=
  QueueService.runDrain (QueueService.startDrain (QueueService.init.addUserFetchJob 1 0).2) 0

/-- Claim C1: single-flight deduplication.  A call to `addUserFetchJob`
while the key is in the in-flight map returns that same pending promise and
leaves the whole state (in particular the job queue) unchanged — no new job
is enqueued and no second upstream call is issued.  A call while no fetch is
in flight enqueues exactly one job carrying a fresh promise, registers that
promise as in flight, and every further call for the same key returns that
same promise and changes nothing, so N back-to-back calls produce exactly
one queued job, hence exactly one upstream call, with all N callers holding
the identical promise. -/
theorem claim_C1 (s : QueueService) (userId now : Nat) :
    (∀ pid, lookupKey userId s.pendingRequests = some pid →
        s.addUserFetchJob userId now = (pid, s))
  ∧ (lookupKey userId s.pendingRequests = none →
        (s.addUserFetchJob userId now).1 = s.nextPromiseId
      ∧ (s.addUserFetchJob userId now).2.queue
          = s.queue ++ [{ id := "user-" ++ toString userId ++ "-" ++ toString now,
                          userId := userId, timestamp := now, promiseId := s.nextPromiseId }]
      ∧ lookupKey userId (s.addUserFetchJob userId now).2.pendingRequests
          = some s.nextPromiseId
      ∧ ∀ now', ((s.addUserFetchJob userId now).2).addUserFetchJob userId now'
          = ((s.addUserFetchJob userId now).1, (s.addUserFetchJob userId now).2)) := by
  refine ⟨?_, ?_⟩
  · intro pid h
    simp [QueueService.addUserFetchJob, h]
  · intro h
    have hpend := lookupKey_jsMapSet_self userId s.nextPromiseId s.pendingRequests
    refine ⟨?_, ?_, ?_, ?_⟩ <;>
      simp [QueueService.addUserFetchJob, h, hpend]

/-- Witness for C1: after a first call on the fresh service, a second call
for the same user (at a later time) returns the same promise and leaves the
state unchanged. -/
theorem claim_C1_witness :
    ((QueueService.init.addUserFetchJob 1 0).2.addUserFetchJob 1 3)
      = ((QueueService.init.addUserFetchJob 1 0).1, (QueueService.init.addUserFetchJob 1 0).2) :=
  (((claim_C1 QueueService.init 1 0).2 (by decide)).2.2.2) 3

/-- Claim C6: upstream failure.  When the in-flight fetch for a key fails,
the shared promise every waiter for that key holds is settled with that same
failure, the failure counter is bumped, the in-flight entry for the key is
cleared, and the failure is not cached: the next `addUserFetchJob` for the
key finds no pending entry, so it enqueues a fresh job with a fresh promise
— a new upstream call — instead of reusing the failed result. -/
theorem claim_C6 (s : QueueService) (i : Nat) (job : QueueJob) (e : String) (now' : Nat)
    (hd : s.drains[i]? = some (DrainPC.fetching job))
    (hp : lookupKey job.promiseId s.promises = some none) :
    lookupKey job.promiseId (s.completeFetch i (JobResult.failure e)).promises
      = some (some (JobResult.failure e))
  ∧ (s.completeFetch i (JobResult.failure e)).stats.failed = s.stats.failed + 1
  ∧ lookupKey job.userId (s.completeFetch i (JobResult.failure e)).pendingRequests = none
  ∧ ((s.completeFetch i (JobResult.failure e)).addUserFetchJob job.userId now').1
      = s.nextPromiseId
  ∧ ((s.completeFetch i (JobResult.failure e)).addUserFetchJob job.userId now').2.queue
      = (s.completeFetch i (JobResult.failure e)).queue
        ++ [{ id := "user-" ++ toString job.userId ++ "-" ++ toString now',
              userId := job.userId, timestamp := now', promiseId := s.nextPromiseId }] := by
  have hkey := lookupKey_eraseKey_self job.userId s.pendingRequests
  refine ⟨?_, ?_, ?_, ?_, ?_⟩ <;>
    simp [QueueService.completeFetch, hd, QueueService.addUserFetchJob, hkey,
      lookupKey_settle_self hp]

/-- Witness for C6: failing the in-flight fetch of `sFetch` clears the
in-flight entry for user 1. -/
theorem claim_C6_witness :
    lookupKey 1 (sFetch.completeFetch 0 (JobResult.failure "boom")).pendingRequests = none :=
  (claim_C6 sFetch 0 jobEx "boom" 7 (by decide) (by decide)).2.2.1

/-- Claim C8: completion semantics.  Settling the job's promise and deleting
the key from the in-flight map happen in the same synchronous block (the
drain suspends only at its two `await`s), so the earliest state any waiter
can observe the result in is the post-state of `completeFetch` — and there
the promise is settled while the key is already absent from the in-flight
map.  A request arriving in that state is handed a fresh promise, distinct
from the settled one, so no waiter is ever added to the destroyed entry. -/
theorem claim_C8 (s : QueueService) (i : Nat) (job : QueueJob) (r : JobResult) (now' : Nat)
    (hd : s.drains[i]? = some (DrainPC.fetching job))
    (hp : lookupKey job.promiseId s.promises = some none)
    (hfresh : job.promiseId < s.nextPromiseId) :
    lookupKey job.promiseId (s.completeFetch i r).promises = some (some r)
  ∧ lookupKey job.userId (s.completeFetch i r).pendingRequests = none
  ∧ ((s.completeFetch i r).addUserFetchJob job.userId now').1
      = (s.completeFetch i r).nextPromiseId
  ∧ (s.completeFetch i r).nextPromiseId ≠ job.promiseId := by
  have hkey := lookupKey_eraseKey_self job.userId s.pendingRequests
  cases r with
  | success u =>
      refine ⟨?_, ?_, ?_, ?_⟩ <;>
        simp [QueueService.completeFetch, hd, QueueService.addUserFetchJob, hkey,
          lookupKey_settle_self hp] <;> omega
  | failure e =>
      refine ⟨?_, ?_, ?_, ?_⟩ <;>
        simp [QueueService.completeFetch, hd, QueueService.addUserFetchJob, hkey,
          lookupKey_settle_self hp] <;> omega

/-- Witness for C8: completing the in-flight fetch of `sFetch` with a
successful result settles promise 0 with that result. -/
theorem claim_C8_witness :
    lookupKey 0 (sFetch.completeFetch 0 (JobResult.success (some userA))).promises
      = some (some (JobResult.success (some userA))) :=
  (claim_C8 sFetch 0 jobEx (JobResult.success (some userA)) 9
    (by decide) (by decide) (by decide)).1

/-- Claim C9: shutdown.  `close()` rejects every queued-but-not-yet-started
job with the shutdown error, and afterwards the queue and the in-flight map
are both empty. -/
theorem claim_C9 (s : QueueService) (j : QueueJob)
    (hj : j ∈ s.queue) (hp : lookupKey j.promiseId s.promises = some none) :
    s.close.queue = [] ∧ s.close.pendingRequests = []
  ∧ lookupKey j.promiseId s.close.promises
      = some (some (JobResult.failure shutdownMessage)) := by
  refine ⟨rfl, rfl, ?_⟩
  simp only [QueueService.close]
  exact foldl_settle_of_mem hj hp

/-- Witness for C9: closing the service with user 1's job still queued
rejects that job's promise with the shutdown error. -/
theorem claim_C9_witness :
    lookupKey 0 (QueueService.close (QueueService.init.addUserFetchJob 1 0).2).promises
      = some (some (JobResult.failure shutdownMessage)) :=
  (claim_C9 (QueueService.init.addUserFetchJob 1 0).2 jobEx (by decide) (by decide)).2.2

/-! ## Statistics monotonicity (C7) and global serialization (C10) -/

/-- Pointwise order on the cache's accumulating counters. -/
def cacheCountersLE (a b : LRUCache) : Prop :=
  a.stats.hits ≤ b.stats.hits ∧ a.stats.misses ≤ b.stats.misses
  ∧ a.stats.totalRequests ≤ b.stats.totalRequests
  ∧ a.stats.totalResponseTime ≤ b.stats.totalResponseTime

/-- Counterexample to C7 as stated: `stats.pending` is not monotonically
non-decreasing — the step in which the drain shifts a job from the queue for
processing (no administrative clear) decrements it. -/
theorem claim_C7_counterexample :
    QStep (QueueService.startDrain (QueueService.init.addUserFetchJob 1 0).2) sFetch
  ∧ sFetch.stats.pending
      < (QueueService.startDrain (QueueService.init.addUserFetchJob 1 0).2).stats.pending :=
  ⟨QStep.run _ 0, by decide⟩

/-- Claim C7, amended: the counters `hits`, `misses`, `totalRequests`,
`totalResponseTime` (cache) and `processed`, `failed` (queue) are
monotonically non-decreasing across every operation — the cache counters are
untouched even by `clear`, which resets only entries and the size counter.
`pending`, however, is a gauge of currently-queued jobs, not an accumulating
counter: it is decremented whenever the drain dequeues a job for
processing. -/
theorem claim_C7 :
    (∀ (s : LRUCache) (key : String) (data : User) (now tEnd : Nat),
        cacheCountersLE s (s.get key now tEnd).2
      ∧ cacheCountersLE s (s.set key data now)
      ∧ cacheCountersLE s (s.delete key).2
      ∧ cacheCountersLE s s.clear
      ∧ cacheCountersLE s (s.cleanupExpiredEntries now))
  ∧ (∀ (s t : QueueService), QStep s t →
        s.stats.processed ≤ t.stats.processed ∧ s.stats.failed ≤ t.stats.failed) := by
  refine ⟨?_, ?_⟩
  · intro s key data now tEnd
    refine ⟨?_, ?_, ?_, ?_, ?_⟩
    · rcases h : lookupKey key s.cache with _ | item
      · simp [cacheCountersLE, LRUCache.get, h, LRUCache.updateStats]
      · by_cases hexp : now - item.timestamp > s.ttl
        · simp [cacheCountersLE, LRUCache.get, h, hexp, LRUCache.updateStats]
        · simp [cacheCountersLE, LRUCache.get, h, hexp, LRUCache.updateStats]
    · simp [cacheCountersLE, LRUCache.set]
    · rcases h : (lookupKey key s.cache).isSome with _ | _ <;>
        simp [cacheCountersLE, LRUCache.delete, h]
    · simp [cacheCountersLE, LRUCache.clear]
    · simp [cacheCountersLE, LRUCache.cleanupExpiredEntries]
  · intro s t hst
    cases hst with
    | add userId now =>
        rcases h : lookupKey userId s.pendingRequests with _ | pid <;>
          simp [QueueService.addUserFetchJob, h]
    | start =>
        by_cases h : s.processing = true ∨ s.queue = [] <;>
          simp [QueueService.startDrain, h]
    | run i =>
        rcases h : s.drains[i]? with _ | pc
        · simp [QueueService.runDrain, h]
        · cases pc with
          | running =>
              rcases hq : s.queue with _ | ⟨job, rest⟩ <;>
                simp [QueueService.runDrain, h, hq]
          | fetching job => simp [QueueService.runDrain, h]
          | pacing => simp [QueueService.runDrain, h]
    | complete i r =>
        rcases h : s.drains[i]? with _ | pc
        · simp [QueueService.completeFetch, h]
        · cases pc with
          | running => simp [QueueService.completeFetch, h]
          | fetching job =>
              cases r with
              | success u => simp [QueueService.completeFetch, h]
              | failure e => simp [QueueService.completeFetch, h]
          | pacing => simp [QueueService.completeFetch, h]
    | pace i =>
        rcases h : s.drains[i]? with _ | pc
        · simp [QueueService.pacingDone, h]
        · cases pc <;> simp [QueueService.pacingDone, h]
    | close => simp [QueueService.close]

/-- Witness for C7: a concrete cache `get` and a concrete queue step. -/
theorem claim_C7_witness :
    cacheCountersLE (freshCache 100) ((freshCache 100).get "a" 0 0).2
  ∧ (QueueService.init.stats.processed ≤ QueueService.init.startDrain.stats.processed
    ∧ QueueService.init.stats.failed ≤ QueueService.init.startDrain.stats.failed) :=
  ⟨(claim_C7.1 (freshCache 100) "a" userA 0 0).1,
   claim_C7.2 QueueService.init QueueService.init.startDrain (QStep.start QueueService.init)⟩

/-- The inductive invariant behind C10: at most one `processQueue`
invocation is ever active, because a new one starts only when the
`processing` flag is down, and the flag is down only when no invocation is
active. -/
def QueueService.DrainInv (s : QueueService) : Prop :=
  s.drains.length ≤ 1 ∧ (s.processing = false → s.drains = [])

theorem drainInv_step {s t : QueueService} (hs : s.DrainInv) (h : QStep s t) :
    t.DrainInv := by
  obtain ⟨hlen, hflag⟩ := hs
  cases h with
  | add userId now =>
      rcases h : lookupKey userId s.pendingRequests with _ | pid <;>
        simp_all [QueueService.addUserFetchJob, QueueService.DrainInv, h]
  | start =>
      by_cases h : s.processing = true ∨ s.queue = []
      · simpa [QueueService.startDrain, h, QueueService.DrainInv] using ⟨hlen, hflag⟩
      · have hpf : s.processing = false := by
          rcases hb : s.processing with _ | _
          · rfl
          · exact absurd (Or.inl hb) h
        have hdr : s.drains = [] := hflag hpf
        simp [QueueService.startDrain, h, QueueService.DrainInv, hdr]
  | run i =>
      rcases h : s.drains[i]? with _ | pc
      · simpa [QueueService.runDrain, h, QueueService.DrainInv] using ⟨hlen, hflag⟩
      · have hi : i < s.drains.length := by
          rcases List.getElem?_eq_some_iff.mp h with ⟨hlt, _⟩
          exact hlt
        have hne : s.drains ≠ [] := by
          intro hc
          rw [hc] at hi
          simp at hi
        have hproc : s.processing = true := by
          rcases hb : s.processing with _ | _
          · exact absurd (hflag hb) hne
          · rfl
        cases pc with
        | running =>
            rcases hq : s.queue with _ | ⟨job, rest⟩
            · have hone : s.drains.length = 1 := by omega
              have hz : (s.drains.eraseIdx i).length = 0 := by
                have := List.length_eraseIdx_add_one hi
                omega
              have hnil : s.drains.eraseIdx i = [] := List.length_eq_zero.mp hz
              simp [QueueService.runDrain, h, hq, QueueService.DrainInv, hnil]
            · constructor
              · simpa [QueueService.runDrain, h, hq, List.length_set] using hlen
              · intro hpf
                simp [QueueService.runDrain, h, hq] at hpf
                rw [hproc] at hpf
                simp at hpf
        | fetching job =>
            simpa [QueueService.runDrain, h, QueueService.DrainInv] using ⟨hlen, hflag⟩
        | pacing =>
            simpa [QueueService.runDrain, h, QueueService.DrainInv] using ⟨hlen, hflag⟩
  | complete i r =>
      rcases h : s.drains[i]? with _ | pc
      · simpa [QueueService.completeFetch, h, QueueService.DrainInv] using ⟨hlen, hflag⟩
      · have hi : i < s.drains.length := by
          rcases List.getElem?_eq_some_iff.mp h with ⟨hlt, _⟩
          exact hlt
        have hne : s.drains ≠ [] := by
          intro hc
          rw [hc] at hi
          simp at hi
        have hproc : s.processing = true := by
          rcases hb : s.processing with _ | _
          · exact absurd (hflag hb) hne
          · rfl
        cases pc with
        | running =>
            simpa [QueueService.completeFetch, h, QueueService.DrainInv] using ⟨hlen, hflag⟩
        | fetching job =>
            cases r with
            | success u =>
                refine ⟨by simpa [QueueService.completeFetch, h, List.length_set] using hlen, ?_⟩
                intro hpf
                simp [QueueService.completeFetch, h] at hpf
                rw [hproc] at hpf
                simp at hpf
            | failure e =>
                refine ⟨by simpa [QueueService.completeFetch, h, List.length_set] using hlen, ?_⟩
                intro hpf
                simp [QueueService.completeFetch, h] at hpf
                rw [hproc] at hpf
                simp at hpf
        | pacing =>
            simpa [QueueService.completeFetch, h, QueueService.DrainInv] using ⟨hlen, hflag⟩
  | pace i =>
      rcases h : s.drains[i]? with _ | pc
      · simpa [QueueService.pacingDone, h, QueueService.DrainInv] using ⟨hlen, hflag⟩
      · have hi : i < s.drains.length := by
          rcases List.getElem?_eq_some_iff.mp h with ⟨hlt, _⟩
          exact hlt
        have hne : s.drains ≠ [] := by
          intro hc
          rw [hc] at hi
          simp at hi
        have hproc : s.processing = true := by
          rcases hb : s.processing with _ | _
          · exact absurd (hflag hb) hne
          · rfl
        cases pc with
        | running =>
            simpa [QueueService.pacingDone, h, QueueService.DrainInv] using ⟨hlen, hflag⟩
        | fetching job =>
            simpa [QueueService.pacingDone, h, QueueService.DrainInv] using ⟨hlen, hflag⟩
        | pacing =>
            refine ⟨by simpa [QueueService.pacingDone, h, List.length_set] using hlen, ?_⟩
            intro hpf
            simp [QueueService.pacingDone, h] at hpf
            rw [hproc] at hpf
            simp at hpf
  | close =>
      simpa [QueueService.close, QueueService.DrainInv] using ⟨hlen, hflag⟩

theorem drainInv_reachable {s : QueueService} (h : QReachable s) : s.DrainInv := by
  induction h with
  | init => exact ⟨by simp [QueueService.init], fun _ => rfl⟩
  | step hr hst ih => exact drainInv_step ih hst

/-- Claim C10: global serialization of upstream fetches.  In every reachable
state at most one upstream fetch is in flight across all keys: the single
drain loop, guarded by the `processing` flag, awaits each upstream call (and
the 10 ms pacing delay, the `pacing` state) before touching the next job, so
the number of active fetches never exceeds one. -/
theorem claim_C10 (s : QueueService) (h : QReachable s) :
    (s.drains.filter DrainPC.isFetching).length ≤ 1 :=
  le_trans (List.length_filter_le _ _) (drainInv_reachable h).1

/-- Witness for C10: the reachable state `sFetch`, which has exactly one
fetch in flight. -/
theorem claim_C10_witness :
    (sFetch.drains.filter DrainPC.isFetching).length ≤ 1 :=
  claim_C10 sFetch
    (QReachable.step (QReachable.step (QReachable.step QReachable.init
      (QStep.add QueueService.init 1 0)) (QStep.start _)) (QStep.run _ 0))

end UserDataApi
